import Mathlib

/-!
Verification of the stock-dashboard frontend core: the data fetcher
(`frontend/src/services/stockApi.js`) and the polling controller (the `App`
component).  JavaScript strings are modelled as lists of code points
(`JStr`), JSON values as an inductive `Json` with an `undefined` value for
missing-property access, and the network as a function from request URLs to
HTTP responses.  The controller is modelled as a state machine driven by an
event list (effect run on mount / selection change, timer fire, promise
resolution, unmount).
-/

/-- JavaScript strings, modelled as lists of Unicode code points. -/
abbrev JStr := List Nat

/-- Embed a Lean string literal as a `JStr`. -/
def jstr (s : String) : JStr := s.data.map Char.toNat

/-- The code points ECMAScript `String.prototype.trim` strips: WhiteSpace
and LineTerminator code points. -/
def isWS (c : Nat) : Bool :=
  decide (c = 9 ∨ c = 10 ∨ c = 11 ∨ c = 12 ∨ c = 13 ∨ c = 32 ∨ c = 160 ∨
    c = 0x1680 ∨ (0x2000 ≤ c ∧ c ≤ 0x200A) ∨ c = 0x2028 ∨ c = 0x2029 ∨
    c = 0x202F ∨ c = 0x205F ∨ c = 0x3000 ∨ c = 0xFEFF)

/-- ASCII case mapping of a single code point, modelling the effect of
`String.prototype.toUpperCase` on the simple (ASCII) case mappings. -/
def upChar (c : Nat) : Nat :=
  if 97 ≤ c ∧ c ≤ 122 then c - 32 else c

/-- Model of `s.trim()`: drop leading and trailing whitespace. -/
def jsTrim (s : JStr) : JStr :=
  (((s.dropWhile isWS).reverse).dropWhile isWS).reverse

/-- Model of `s.toUpperCase()` (simple case mappings). -/
def jsToUpper (s : JStr) : JStr := s.map upChar

/-- The symbol normalization `ticker.trim().toUpperCase()` performed by
`fetchStockDataApi`. -/
def normalizeSym (s : JStr) : JStr := jsToUpper (jsTrim s)

/-- JSON values as seen by the frontend after `response.json()`, with
`undefined` as the result of accessing a missing property. -/
inductive Json where
  | undefined : Json
  | null : Json
  | bool : Bool → Json
  | num : Int → Json
  | str : JStr → Json
  | arr : List Json → Json
  | obj : List (JStr × Json) → Json

/-- JavaScript property access `j[k]`: looks a key up in an object,
yielding `undefined` when the key is absent or the value is not an object. -/
def Json.getField : Json → JStr → Json
  | .obj fields, k =>
    match fields.find? (fun kv => kv.1 == k) with
    | some kv => kv.2
    | none => .undefined
  | _, _ => .undefined

/-- JavaScript truthiness test: `!j` is true exactly on these values. -/
def Json.isFalsy : Json → Bool
  | .undefined => true
  | .null => true
  | .bool b => !b
  | .num n => n == 0
  | .str s => s.isEmpty
  | _ => false

/-- Model of `Array.isArray`. -/
def Json.isArray : Json → Bool
  | .arr _ => true
  | _ => false

/-- An HTTP response as observed by `fetch`: status, status text, and the
body (`none` models a body that fails to parse as JSON). -/
structure HttpResponse where
  status : Nat
  statusText : JStr
  body : Option Json

/-- Model of `response.ok`: status in the inclusive range 200–299. -/
def HttpResponse.ok (r : HttpResponse) : Bool :=
  decide (200 ≤ r.status ∧ r.status ≤ 299)

/-- The network: what response a GET of a given URL produces. -/
abbrev Net := JStr → HttpResponse

/-- An HTTP request issued by the fetcher (`fetch(apiUrl)` defaults to GET). -/
structure Request where
  method : JStr
  url : JStr
deriving DecidableEq

/-- Error taxonomy of the fetcher.  The JavaScript code throws plain
`Error`s; the kind identifies the throw site and `message` is the exact
message text the code builds. -/
inductive ErrKind where
  | validation : ErrKind
  | http : ErrKind
  | format : ErrKind
  | jsonParse : ErrKind
deriving DecidableEq

/-- An error thrown by the fetcher. -/
structure JsError where
  kind : ErrKind
  message : JStr
deriving DecidableEq

/-- Decimal rendering of a natural number, as JavaScript template-literal
interpolation of `response.status` produces. -/
def natToJStr (n : Nat) : JStr := (Nat.toDigits 10 n).map Char.toNat

/-- UTF-8 encoding of one code point (byte list). -/
def utf8Encode (c : Nat) : List Nat :=
  if c < 0x80 then [c]
  else if c < 0x800 then [0xC0 + c / 0x40, 0x80 + c % 0x40]
  else if c < 0x10000 then
    [0xE0 + c / 0x1000, 0x80 + (c / 0x40) % 0x40, 0x80 + c % 0x40]
  else
    [0xF0 + c / 0x40000, 0x80 + (c / 0x1000) % 0x40,
     0x80 + (c / 0x40) % 0x40, 0x80 + c % 0x40]

/-- Uppercase hexadecimal digit as a code point. -/
def hexDigit (n : Nat) : Nat := if n < 10 then 48 + n else 55 + n

/-- Percent-encoding of one byte: `%XX`. -/
def percentByte (b : Nat) : List Nat := [37, hexDigit (b / 16), hexDigit (b % 16)]

/-- Bytes the `application/x-www-form-urlencoded` serializer leaves as-is:
ASCII alphanumerics and `*`, `-`, `.`, `_`. -/
def formUnreserved (c : Nat) : Bool :=
  decide ((48 ≤ c ∧ c ≤ 57) ∨ (65 ≤ c ∧ c ≤ 90) ∨ (97 ≤ c ∧ c ≤ 122) ∨
    c = 42 ∨ c = 45 ∨ c = 46 ∨ c = 95)

/-- `application/x-www-form-urlencoded` encoding of one code point
(space becomes `+`, other reserved code points are percent-encoded). -/
def formEncodeChar (c : Nat) : List Nat :=
  if formUnreserved c then [c]
  else if c = 32 then [43]
  else ((utf8Encode c).map percentByte).flatten

/-- Encoding of a whole string for a query component. -/
def formEncode (s : JStr) : JStr := (s.map formEncodeChar).flatten

/-- Model of `new URLSearchParams({period, interval}).toString()` as it is
interpolated into the request URL. -/
def urlSearchParamsToString (ps : List (JStr × JStr)) : JStr :=
  List.intercalate [38] (ps.map fun kv => formEncode kv.1 ++ [61] ++ formEncode kv.2)

/-- `API_BASE_URL` from `stockApi.js`. -/
def API_BASE_URL : JStr := jstr "http://localhost:5000"

/-- The URL `fetchStockDataApi` builds for a (normalized-nonempty) ticker. -/
def requestUrl (upperTicker period interval : JStr) : JStr :=
  API_BASE_URL ++ jstr "/api/stockdata/" ++ upperTicker ++ jstr "?" ++
    urlSearchParamsToString [(jstr "period", period), (jstr "interval", interval)]

/-- Outcome of one call to `fetchStockDataApi`: the requests issued and the
settled result of the returned promise. -/
structure FetchOutcome where
  requests : List Request
  result : Except JsError Json

/-- Shallow embedding of `fetchStockDataApi(ticker, period, interval)` from
`frontend/src/services/stockApi.js`, parametrised by the network. -/
def fetchStockDataApi (ticker period interval : JStr) (net : Net) : FetchOutcome :=
  let upperTicker := normalizeSym ticker
  if upperTicker.isEmpty then
    { requests := [],
      result := .error { kind := .validation, message := jstr "Ticker symbol is required." } }
  else
    let apiUrl := requestUrl upperTicker period interval
    let response := net apiUrl
    let requests := [{ method := jstr "GET", url := apiUrl : Request }]
    if !response.ok then
      let msg := jstr "API Error (" ++ natToJStr response.status ++ jstr "): " ++ response.statusText
      { requests := requests, result := .error { kind := .http, message := msg } }
    else
      match response.body with
      | none =>
        { requests := requests,
          result := .error { kind := .jsonParse, message := jstr "Unexpected end of JSON input" } }
      | some data =>
        if data.isFalsy || !(data.getField (jstr "history")).isArray then
          { requests := requests,
            result := .error { kind := .format, message := jstr "Invalid data format received from API." } }
        else
          { requests := requests, result := .ok data }

/-- `DEFAULT_TICKER` from the `App` component. -/
def DEFAULT_TICKER : JStr := jstr "AAPL"

/-- `DEFAULT_INTERVAL` from the `App` component. -/
def DEFAULT_INTERVAL : JStr := jstr "15m"

/-- `POLLING_INTERVAL_MS` from the `App` component. -/
def POLLING_INTERVAL_MS : Nat := 30000

/-- `PERIOD_FOR_INTRADAY` from the `App` component. -/
def PERIOD_FOR_INTRADAY : JStr := jstr "5d"

/-- The lookback period the controller derives inside `fetchData`:
`["1m", "5m", "15m"].includes(currentInterval) ? PERIOD_FOR_INTRADAY : "1y"`. -/
def derivePeriod (currentInterval : JStr) : JStr :=
  if [jstr "1m", jstr "5m", jstr "15m"].contains currentInterval then PERIOD_FOR_INTRADAY
  else jstr "1y"

/-- A repeating timer created by `setInterval`: its handle and its period in
milliseconds. -/
structure Timer where
  id : Nat
  periodMs : Nat
deriving DecidableEq

/-- The state of the `App` component together with the browser resources it
owns: React state (`ticker`, `interval`, `stockData`, `isLoading`, `error`),
the `pollingTimerRef` ref, the environment's set of live repeating timers,
a fresh-handle counter, the results of fetches started but not yet
resolved, and whether the component is mounted. -/
structure AppState where
  ticker : JStr
  interval : JStr
  stockData : Json
  isLoading : Bool
  error : Option JStr
  pollingTimer : Option Nat
  activeTimers : List Timer
  nextTimerId : Nat
  pending : List (Except JsError Json)
  mounted : Bool

/-- The initial `stockData` React state: `{ info: null, history: [] }`. -/
def initialStockData : Json := .obj [(jstr "info", .null), (jstr "history", .arr [])]

/-- The `App` component's state right after its first render, before the
mount effect has run. -/
def initState : AppState :=
  { ticker := DEFAULT_TICKER
    interval := DEFAULT_INTERVAL
    stockData := initialStockData
    isLoading := false
    error := none
    pollingTimer := none
    activeTimers := []
    nextTimerId := 0
    pending := []
    mounted := true }

/-- Model of `clearInterval(handle)` on the environment's timer set. -/
def clearIntervalTimers (handle : Option Nat) (ts : List Timer) : List Timer :=
  match handle with
  | none => ts
  | some id => ts.filter (fun tm => tm.id != id)

/-- The synchronous prefix of `fetchData(currentTicker, currentInterval)`:
set `isLoading` to true, clear `error`, derive the period, and start the
API call; the call's eventual result joins the pending list. -/
def fetchDataStart (t i : JStr) (net : Net) (st : AppState) : AppState :=
  { st with
      isLoading := true
      error := none
      pending := st.pending ++ [(fetchStockDataApi t (derivePeriod i) i net).result] }

/-- The network requests issued by one invocation of `fetchData`. -/
def fetchDataRequests (t i : JStr) (net : Net) : List Request :=
  (fetchStockDataApi t (derivePeriod i) i net).requests

/-- Events driving the controller: the `useEffect` body running (on mount
or after a ticker/interval change, with the previous effect's cleanup), a
repeating-timer tick, resolution of the oldest pending fetch, and unmount
(the final effect cleanup). -/
inductive Event where
  | effectRun : JStr → JStr → Net → Event
  | timerFire : Nat → Net → Event
  | resolveNext : Event
  | unmount : Event

/-- One controller step.  `effectRun t i net` models a render with selection
`(t, i)` whose effect fires: `fetchData(ticker, interval)`, then
`clearInterval` on the previous handle, then `setInterval(- fetchData -,
POLLING_INTERVAL_MS)`.  `timerFire id` models a tick of a live timer (a
cleared timer never ticks).  `resolveNext` models the oldest in-flight
fetch settling: on fulfilment `setStockData(data)`, on rejection
`setError(err.message)`, and `setIsLoading(false)` in `finally`.
`unmount` models the effect cleanup `() => clearInterval(pollingTimerRef.current)`. -/
def step (st : AppState) : Event → AppState × List Request
  | .effectRun t i net =>
    if st.mounted then
      let st1 := fetchDataStart t i net { st with ticker := t, interval := i }
      let cleared := clearIntervalTimers st1.pollingTimer st1.activeTimers
      let newId := st1.nextTimerId
      ({ st1 with
          activeTimers := cleared ++ [{ id := newId, periodMs := POLLING_INTERVAL_MS }]
          pollingTimer := some newId
          nextTimerId := newId + 1 },
       fetchDataRequests t i net)
    else (st, [])
  | .timerFire id net =>
    if st.activeTimers.any (fun tm => tm.id == id) then
      (fetchDataStart st.ticker st.interval net st, fetchDataRequests st.ticker st.interval net)
    else (st, [])
  | .resolveNext =>
    match st.pending with
    | [] => (st, [])
    | .ok data :: rest =>
      ({ st with stockData := data, isLoading := false, pending := rest }, [])
    | .error e :: rest =>
      ({ st with error := some e.message, isLoading := false, pending := rest }, [])
  | .unmount =>
    ({ st with
        mounted := false
        activeTimers := clearIntervalTimers st.pollingTimer st.activeTimers }, [])

/-- Run the controller over a list of events, collecting issued requests. -/
def run (st : AppState) : List Event → AppState × List Request
  | [] => (st, [])
  | e :: es =>
    let p := step st e
    let q := run p.1 es
    (q.1, p.2 ++ q.2)

/-- A backend that always answers 200 with a well-formed body. -/
def netOk : Net := fun _ =>
  { status := 200
    statusText := jstr "OK"
    body := some (.obj [(jstr "info", .obj []), (jstr "history", .arr [])]) }

/-- A backend that always answers HTTP 500. -/
def net500 : Net := fun _ =>
  { status := 500, statusText := jstr "Internal Server Error", body := none }

/-- A backend that answers 200 with body `{history: "not-an-array"}`. -/
def netBadFormat : Net := fun _ =>
  { status := 200
    statusText := jstr "OK"
    body := some (.obj [(jstr "history", .str (jstr "not-an-array"))]) }

theorem upChar_idem (c : Nat) : upChar (upChar c) = upChar c := by
  simp only [upChar]
  by_cases h : 97 ≤ c ∧ c ≤ 122
  · rw [if_pos h, if_neg (by omega)]
  · rw [if_neg h, if_neg h]

theorem isWS_upChar (c : Nat) : isWS (upChar c) = isWS c := by
  simp only [upChar]
  by_cases h : 97 ≤ c ∧ c ≤ 122
  · rw [if_pos h]
    simp only [isWS]
    rw [decide_eq_decide]
    omega
  · rw [if_neg h]

theorem comp_isWS_upChar : (isWS ∘ upChar) = isWS := by
  funext c
  exact isWS_upChar c

theorem dropWhile_map_upChar (l : List Nat) :
    (l.map upChar).dropWhile isWS = (l.dropWhile isWS).map upChar := by
  rw [List.dropWhile_map, comp_isWS_upChar]

theorem jsTrim_jsToUpper (s : JStr) : jsTrim (jsToUpper s) = jsToUpper (jsTrim s) := by
  simp only [jsTrim, jsToUpper]
  rw [dropWhile_map_upChar, ← List.map_reverse, dropWhile_map_upChar, ← List.map_reverse]

theorem dropWhile_dropWhile_self (p : Nat → Bool) (l : List Nat) :
    (l.dropWhile p).dropWhile p = l.dropWhile p := by
  induction l with
  | nil => rfl
  | cons a t ih =>
    by_cases h : p a = true
    · rw [List.dropWhile_cons_of_pos h]
      exact ih
    · rw [List.dropWhile_cons_of_neg (by simpa using h),
        List.dropWhile_cons_of_neg (by simpa using h)]

theorem isWS_head_dropWhile {l t : List Nat} {a : Nat}
    (h : l.dropWhile isWS = a :: t) : isWS a = false := by
  have h0 := List.head?_dropWhile_not isWS l
  rw [h] at h0
  exact h0

theorem dropWhile_exists_prefix (p : Nat → Bool) (l : List Nat) :
    ∃ t, t ++ l.dropWhile p = l := by
  induction l with
  | nil => exact ⟨[], rfl⟩
  | cons a r ih =>
    by_cases h : p a = true
    · obtain ⟨t, ht⟩ := ih
      exact ⟨a :: t, by rw [List.dropWhile_cons_of_pos h, List.cons_append, ht]⟩
    · exact ⟨[], by rw [List.dropWhile_cons_of_neg (by simpa using h)]; rfl⟩

theorem jsTrim_idem (s : JStr) : jsTrim (jsTrim s) = jsTrim s := by
  simp only [jsTrim]
  set u := s.dropWhile isWS with hu
  set v := u.reverse.dropWhile isWS with hv
  have hA : v.reverse.dropWhile isWS = v.reverse := by
    cases hvr : v.reverse with
    | nil => rfl
    | cons a t =>
      have hfalse : isWS a = false := by
        obtain ⟨w, hw⟩ := dropWhile_exists_prefix isWS u.reverse
        have hu2 : v.reverse ++ w.reverse = u := by
          rw [hv, ← List.reverse_append, hw, List.reverse_reverse]
        rw [hvr] at hu2
        have hs : s.dropWhile isWS = a :: (t ++ w.reverse) := by
          rw [List.cons_append] at hu2
          rw [hu2, hu]
        exact isWS_head_dropWhile hs
      rw [List.dropWhile_cons_of_neg (by simp [hfalse])]
  rw [hA, List.reverse_reverse, hv, dropWhile_dropWhile_self]

theorem jsToUpper_idem (s : JStr) : jsToUpper (jsToUpper s) = jsToUpper s := by
  simp only [jsToUpper, List.map_map]
  congr 1
  funext c
  exact upChar_idem c

/-- Claim C8: the symbol normalization `normalize(s) = uppercase(trim(s))`
applied by `fetchStockDataApi` to its ticker argument is idempotent:
`normalize(normalize(s)) = normalize(s)` for every string `s`. -/
theorem normalizeSym_idempotent (s : JStr) :
    normalizeSym (normalizeSym s) = normalizeSym s := by
  simp only [normalizeSym]
  rw [jsTrim_jsToUpper, jsTrim_idem, jsToUpper_idem]

/-- Claim C1: the polling controller's derived lookback period, a pure
function of the interval alone, is `"5d"` exactly when the interval is one
of `"1m"`, `"5m"`, `"15m"`, and is `"1y"` for every other interval. -/
theorem derivePeriod_spec (i : JStr) :
    (derivePeriod i = jstr "5d" ↔ (i = jstr "1m" ∨ i = jstr "5m" ∨ i = jstr "15m")) ∧
    (derivePeriod i = jstr "5d" ∨ derivePeriod i = jstr "1y") := by
  have hc : ([jstr "1m", jstr "5m", jstr "15m"].contains i = true) ↔
      (i = jstr "1m" ∨ i = jstr "5m" ∨ i = jstr "15m") := by
    simp only [List.contains]
    rw [List.elem_iff]
    simp
  unfold derivePeriod
  by_cases h : [jstr "1m", jstr "5m", jstr "15m"].contains i = true
  · rw [if_pos h]
    exact ⟨⟨fun _ => hc.mp h, fun _ => rfl⟩, Or.inl rfl⟩
  · rw [if_neg h]
    refine ⟨⟨fun h5 => absurd h5 (by decide), fun hm => absurd (hc.mpr hm) h⟩, Or.inr rfl⟩

/-- Claim C5: a symbol that is empty after trimming makes
`fetchStockDataApi` fail with the validation error before any network
request: no request is issued and the result is exactly the thrown
`ValidationError`. -/
theorem fetchStockDataApi_validation (s p i : JStr) (net : Net) (h : jsTrim s = []) :
    fetchStockDataApi s p i net =
      { requests := [],
        result := .error { kind := .validation, message := jstr "Ticker symbol is required." } } := by
  unfold fetchStockDataApi normalizeSym
  rw [h]
  rfl

theorem fetchStockDataApi_validation_witness :
    jsTrim (jstr "   ") = [] ∧
    fetchStockDataApi (jstr "   ") (jstr "5d") (jstr "15m") netOk =
      { requests := [],
        result := .error { kind := .validation, message := jstr "Ticker symbol is required." } } :=
  ⟨by decide, fetchStockDataApi_validation (jstr "   ") (jstr "5d") (jstr "15m") netOk (by decide)⟩

/-- Code points `encodeURIComponent` leaves unescaped. -/
def uriComponentUnreserved (c : Nat) : Bool :=
  decide ((48 ≤ c ∧ c ≤ 57) ∨ (65 ≤ c ∧ c ≤ 90) ∨ (97 ≤ c ∧ c ≤ 122) ∨
    c = 33 ∨ c = 39 ∨ c = 40 ∨ c = 41 ∨ c = 42 ∨ c = 45 ∨ c = 46 ∨ c = 95 ∨ c = 126)

/-- URL-path escaping of a string, percent-encoding every reserved code
point (modelled on `encodeURIComponent`). -/
def urlPathEscape (s : JStr) : JStr :=
  (s.map fun c =>
    if uriComponentUnreserved c then [c] else ((utf8Encode c).map percentByte).flatten).flatten

/-- Modelled from the spec ("`{SYMBOL}` uppercased, URL-path-escaped"): the
request URL claim C4 describes, with the normalized symbol URL-path-escaped
before being embedded as a path segment.  This follows the spec's words and
exists only for comparison with the code's URL construction. -/
def specRequestUrlC4 (s period interval : JStr) : JStr :=
  API_BASE_URL ++ jstr "/api/stockdata/" ++ urlPathEscape (normalizeSym s) ++ jstr "?" ++
    urlSearchParamsToString [(jstr "period", period), (jstr "interval", interval)]

/-- Claim C4 counterexample: for the non-empty symbol `"a b"` the code does
not URL-path-escape the symbol — the issued URL contains the raw space
(`.../A B?...`), not the escaped `%20` form the claim requires. -/
theorem fetchStockDataApi_not_escaped_cex :
    (fetchStockDataApi (jstr "a b") (jstr "5d") (jstr "15m") netOk).requests.map Request.url
      ≠ [specRequestUrlC4 (jstr "a b") (jstr "5d") (jstr "15m")] ∧
    (fetchStockDataApi (jstr "a b") (jstr "5d") (jstr "15m") netOk).requests.map Request.url
      = [jstr "http://localhost:5000/api/stockdata/A B?period=5d&interval=15m"] ∧
    specRequestUrlC4 (jstr "a b") (jstr "5d") (jstr "15m")
      = jstr "http://localhost:5000/api/stockdata/A%20B?period=5d&interval=15m" := by
  refine ⟨by decide, by decide, by decide⟩

/-- Claim C4 (amended): for every symbol that is non-empty after
normalization, `fetchStockDataApi` issues exactly one GET request to
`{baseUrl}/api/stockdata/{SYMBOL}?period={period}&interval={interval}`
where `{SYMBOL}` is the symbol trimmed and uppercased and embedded in the
path verbatim (no URL escaping); the controller's `fetchData` passes the
derived period, so symbol `"aapl"` with interval `"15m"` requests symbol
`"AAPL"` with period `"5d"`. -/
theorem fetchStockDataApi_requests (s p i : JStr) (net : Net)
    (h : normalizeSym s ≠ []) :
    (fetchStockDataApi s p i net).requests =
      [{ method := jstr "GET", url := requestUrl (normalizeSym s) p i }] ∧
    fetchDataRequests s i net =
      [{ method := jstr "GET", url := requestUrl (normalizeSym s) (derivePeriod i) i }] := by
  have hne : ¬ (normalizeSym s).isEmpty = true := by
    simpa [List.isEmpty_iff] using h
  constructor
  · simp only [fetchStockDataApi]
    rw [if_neg hne]
    split
    · rfl
    · split
      · rfl
      · split
        · rfl
        · rfl
  · simp only [fetchDataRequests, fetchStockDataApi]
    rw [if_neg hne]
    split
    · rfl
    · split
      · rfl
      · split
        · rfl
        · rfl

theorem fetchStockDataApi_requests_witness :
    normalizeSym (jstr "aapl") ≠ [] ∧
    fetchDataRequests (jstr "aapl") (jstr "15m") netOk =
      [{ method := jstr "GET",
         url := jstr "http://localhost:5000/api/stockdata/AAPL?period=5d&interval=15m" }] :=
  ⟨by decide,
   ((fetchStockDataApi_requests (jstr "aapl") (jstr "5d") (jstr "15m") netOk (by decide)).2).trans
     (by decide)⟩

/-- Claim C6: on an HTTP success status whose body parses as JSON value
`d`, `fetchStockDataApi` fails with the `FormatError` exactly when the
parsed result is missing (`null`/`undefined`) or its `history` field is not
an array, and any value it returns has an array-valued `history` field. -/
theorem fetchStockDataApi_format (s p i : JStr) (net : Net) (d : Json)
    (hs : normalizeSym s ≠ [])
    (hok : (net (requestUrl (normalizeSym s) p i)).ok = true)
    (hbody : (net (requestUrl (normalizeSym s) p i)).body = some d) :
    ((fetchStockDataApi s p i net).result =
        .error { kind := .format, message := jstr "Invalid data format received from API." }
      ↔ (d = .null ∨ d = .undefined ∨ (d.getField (jstr "history")).isArray = false)) ∧
    (∀ d', (fetchStockDataApi s p i net).result = .ok d' →
      (d'.getField (jstr "history")).isArray = true) := by
  have hne : ¬ (normalizeSym s).isEmpty = true := by
    simpa [List.isEmpty_iff] using hs
  have hres : (fetchStockDataApi s p i net).result =
      (if (d.isFalsy || !(d.getField (jstr "history")).isArray) = true then
        Except.error { kind := .format, message := jstr "Invalid data format received from API." }
      else Except.ok d) := by
    simp only [fetchStockDataApi]
    rw [if_neg hne, hok]
    simp only [Bool.not_true, Bool.false_eq_true, if_false, hbody]
    split
    · rfl
    · rfl
  rw [hres]
  constructor
  · by_cases hd : (d.isFalsy || !(d.getField (jstr "history")).isArray) = true
    · rw [if_pos hd]
      refine ⟨fun _ => ?_, fun _ => rfl⟩
      rw [Bool.or_eq_true] at hd
      rcases hd with hf | ha
      · cases d <;> simp_all [Json.isFalsy, Json.getField, Json.isArray]
      · exact Or.inr (Or.inr (by simpa using ha))
    · rw [if_neg hd]
      constructor
      · intro hcon
        exact absurd hcon (by simp)
      · intro hr
        rcases hr with h1 | h1 | h1 <;> subst_eqs <;> simp_all [Json.isFalsy]
  · intro d' hd'
    by_cases hd : (d.isFalsy || !(d.getField (jstr "history")).isArray) = true
    · rw [if_pos hd] at hd'
      exact absurd hd' (by simp)
    · rw [if_neg hd] at hd'
      have hdd : d = d' := by
        injection hd'
      subst hdd
      simp only [Bool.or_eq_true, not_or, Bool.not_eq_true] at hd
      simpa using hd.2

theorem fetchStockDataApi_format_witness :
    normalizeSym (jstr "AAPL") ≠ [] ∧
    (fetchStockDataApi (jstr "AAPL") (jstr "5d") (jstr "15m") netBadFormat).result =
      .error { kind := .format, message := jstr "Invalid data format received from API." } :=
  ⟨by decide,
   (fetchStockDataApi_format (jstr "AAPL") (jstr "5d") (jstr "15m") netBadFormat
      (.obj [(jstr "history", .str (jstr "not-an-array"))])
      (by decide) (by rfl) (by rfl)).1.mpr (Or.inr (Or.inr (by rfl)))⟩

/-- A non-empty stock data value as stored after a successful fetch. -/
def sampleHistoryData : Json :=
  .obj [(jstr "info", .obj []), (jstr "history", .arr [.num 1])]

/-- A controller state holding previously fetched data. -/
def stateWithData : AppState := { initState with stockData := sampleHistoryData }

/-- Claim C2 counterexample: starting a fetch (here: an effect run for a
selection change) does NOT clear the current data — `fetchData` only sets
`isLoading` and clears `error`, so from a state holding non-empty data the
data survives the fetch start unchanged (it is neither reset to the empty
initial value nor nulled), contradicting the claim's "clears the current
data". -/
theorem fetch_start_keeps_data_cex :
    ((step stateWithData (.effectRun DEFAULT_TICKER DEFAULT_INTERVAL netOk)).1.stockData
        = sampleHistoryData) ∧
    sampleHistoryData ≠ initialStockData ∧
    sampleHistoryData ≠ Json.null ∧
    ((step stateWithData (.effectRun DEFAULT_TICKER DEFAULT_INTERVAL netOk)).1.isLoading = true) := by
  refine ⟨rfl, ?_, ?_, rfl⟩
  · intro h
    simp [sampleHistoryData, initialStockData] at h
  · intro h
    exact Json.noConfusion h

/-- The events that make the controller start a fetch in state `st`: an
effect run while mounted, or a tick of a live repeating timer. -/
def startsFetch (st : AppState) : Event → Bool
  | .effectRun _ _ _ => st.mounted
  | .timerFire id _ => st.activeTimers.any (fun tm => tm.id == id)
  | _ => false

/-- Claim C2 (amended): at the start of every fetch the polling controller
issues — on any effect run (mount or ticker/interval change) and on every
live-timer fire — it sets `isLoading` to true and clears the error before
the fetch resolves, while the current data is left unchanged (it is not
cleared). -/
theorem fetch_start_state (st : AppState) (e : Event) (h : startsFetch st e = true) :
    ((step st e).1.isLoading = true) ∧
    ((step st e).1.error = none) ∧
    ((step st e).1.stockData = st.stockData) := by
  cases e with
  | effectRun t i net =>
    have hm : st.mounted = true := h
    simp [step, hm, fetchDataStart]
  | timerFire id net =>
    have ht : st.activeTimers.any (fun tm => tm.id == id) = true := h
    simp [step, ht, fetchDataStart]
  | resolveNext => exact absurd h (by simp [startsFetch])
  | unmount => exact absurd h (by simp [startsFetch])

theorem fetch_start_state_witness :
    (startsFetch initState (.effectRun DEFAULT_TICKER DEFAULT_INTERVAL netOk) = true) ∧
    ((step initState (.effectRun DEFAULT_TICKER DEFAULT_INTERVAL netOk)).1.isLoading = true) ∧
    ((step initState (.effectRun DEFAULT_TICKER DEFAULT_INTERVAL netOk)).1.error = none) ∧
    ((step initState (.effectRun DEFAULT_TICKER DEFAULT_INTERVAL netOk)).1.stockData
        = initState.stockData) := by
  refine ⟨rfl, ?_⟩
  exact fetch_start_state initState (.effectRun DEFAULT_TICKER DEFAULT_INTERVAL netOk) rfl

/-- Claim C3 counterexample: after the backend answers HTTP 500 and the
controller records the failure, the error message does contain "500", but
`stockData` is NOT null — it still holds the initial
`{ info: null, history: [] }` object (the controller never nulls it). -/
theorem http500_data_not_null_cex :
    ((run initState [.effectRun DEFAULT_TICKER DEFAULT_INTERVAL net500, .resolveNext]).1.error
        = some (jstr "API Error (500): Internal Server Error")) ∧
    (∃ l r, l ++ jstr "500" ++ r = jstr "API Error (500): Internal Server Error") ∧
    ((run initState [.effectRun DEFAULT_TICKER DEFAULT_INTERVAL net500, .resolveNext]).1.stockData
        ≠ Json.null) := by
  refine ⟨rfl, ⟨jstr "API Error (", jstr "): Internal Server Error", by decide⟩, ?_⟩
  have hsd : (run initState [.effectRun DEFAULT_TICKER DEFAULT_INTERVAL net500,
      .resolveNext]).1.stockData = initialStockData := rfl
  rw [hsd]
  intro h
  exact Json.noConfusion h

/-- Claim C3 (amended): if the backend responds with a non-2xx HTTP status,
the fetch fails with an error whose message contains the status code and
the status text; after the controller records the failure, the error
message is stored in `FetchState.error` while `stockData` is left
unchanged — in the HTTP 500 scenario it still holds the initial
`{ info: null, history: [] }` object rather than becoming null. -/
theorem http_error_surfaced (st : AppState) (t i statusText : JStr) (status : Nat)
    (hok : ¬ (200 ≤ status ∧ status ≤ 299)) (ht : normalizeSym t ≠ []) :
    let net : Net := fun _ => { status := status, statusText := statusText, body := none }
    let st1 := (run { st with mounted := true, pending := [] }
      [.effectRun t i net, .resolveNext]).1
    st1.error = some (jstr "API Error (" ++ natToJStr status ++ jstr "): " ++ statusText) ∧
    (∃ l r, l ++ natToJStr status ++ r
        = jstr "API Error (" ++ natToJStr status ++ jstr "): " ++ statusText) ∧
    (∃ l r, l ++ statusText ++ r
        = jstr "API Error (" ++ natToJStr status ++ jstr "): " ++ statusText) ∧
    st1.stockData = st.stockData ∧
    st1.isLoading = false := by
  intro net st1
  have hne : ¬ (normalizeSym t).isEmpty = true := by
    simpa [List.isEmpty_iff] using ht
  have hnok : (net (requestUrl (normalizeSym t) (derivePeriod i) i)).ok = false := by
    simp [net, HttpResponse.ok, hok]
  have houtcome : (fetchStockDataApi t (derivePeriod i) i net).result =
      .error { kind := .http, message := jstr "API Error (" ++ natToJStr status ++ jstr "): " ++ statusText } := by
    simp only [fetchStockDataApi]
    rw [if_neg hne, hnok]
    rfl
  have hst1 : st1 = { st with
      ticker := t
      interval := i
      mounted := true
      isLoading := false
      error := some (jstr "API Error (" ++ natToJStr status ++ jstr "): " ++ statusText)
      pending := []
      pollingTimer := some st.nextTimerId
      activeTimers := clearIntervalTimers st.pollingTimer st.activeTimers
          ++ [{ id := st.nextTimerId, periodMs := POLLING_INTERVAL_MS }]
      nextTimerId := st.nextTimerId + 1 } := by
    show (run { st with mounted := true, pending := [] }
      [.effectRun t i net, .resolveNext]).1 = _
    simp only [run, step, fetchDataStart, if_true]
    rw [houtcome]
    rfl
  refine ⟨by rw [hst1], ?_, ?_, by rw [hst1], by rw [hst1]⟩
  · refine ⟨jstr "API Error (", jstr "): " ++ statusText, ?_⟩
    simp [List.append_assoc]
  · refine ⟨jstr "API Error (" ++ natToJStr status ++ jstr "): ", [], ?_⟩
    simp [List.append_assoc]

theorem http_error_surfaced_witness :
    (¬ (200 ≤ 500 ∧ 500 ≤ 299)) ∧
    normalizeSym DEFAULT_TICKER ≠ [] ∧
    ((run { initState with mounted := true, pending := [] }
        [.effectRun DEFAULT_TICKER DEFAULT_INTERVAL
          (fun _ => { status := 500, statusText := jstr "Internal Server Error", body := none }),
         .resolveNext]).1.error
      = some (jstr "API Error (500): Internal Server Error")) := by
  refine ⟨by omega, by decide, ?_⟩
  have h := http_error_surfaced initState DEFAULT_TICKER DEFAULT_INTERVAL
    (jstr "Internal Server Error") 500 (by omega) (by decide)
  exact h.1.trans (by decide)

/-- The environment timers corresponding to a `pollingTimerRef` value. -/
def timersOfRef : Option Nat → List Timer
  | none => []
  | some id => [{ id := id, periodMs := POLLING_INTERVAL_MS }]

/-- Timer-resource invariant: while mounted the live timers are exactly the
one the ref points at (or none before the first effect); after unmount no
timer is live. -/
def TimerInv (st : AppState) : Prop :=
  st.activeTimers = (if st.mounted then timersOfRef st.pollingTimer else [])

theorem timerInv_init : TimerInv initState := rfl

theorem clearIntervalTimers_timersOfRef (h : Option Nat) :
    clearIntervalTimers h (timersOfRef h) = [] := by
  cases h with
  | none => rfl
  | some id => simp [clearIntervalTimers, timersOfRef]

theorem timerInv_step (st : AppState) (e : Event) (h : TimerInv st) :
    TimerInv (step st e).1 := by
  cases e with
  | effectRun t i net =>
    by_cases hm : st.mounted = true
    · have hact : st.activeTimers = timersOfRef st.pollingTimer := by
        rw [h, if_pos hm]
      simp only [step, hm, if_true, TimerInv, fetchDataStart]
      rw [hact, clearIntervalTimers_timersOfRef]
      rfl
    · simp only [step, hm, if_false]
      exact h
  | timerFire id net =>
    by_cases ht : st.activeTimers.any (fun tm => tm.id == id) = true
    · simp only [step, ht, if_true, TimerInv, fetchDataStart]
      exact h
    · simp only [step, ht, if_false]
      exact h
  | resolveNext =>
    cases hp : st.pending with
    | nil => simp only [step, hp]; exact h
    | cons r rest =>
      cases r with
      | ok d => simp only [step, hp, TimerInv]; exact h
      | error e0 => simp only [step, hp, TimerInv]; exact h
  | unmount =>
    simp only [step, TimerInv, if_false]
    by_cases hm : st.mounted = true
    · have hact : st.activeTimers = timersOfRef st.pollingTimer := by
        rw [h, if_pos hm]
      rw [hact, clearIntervalTimers_timersOfRef]
      rfl
    · have hact : st.activeTimers = [] := by
        rw [h, if_neg hm]
      rw [hact]
      cases st.pollingTimer <;> rfl

theorem timerInv_run (st : AppState) (h : TimerInv st) (es : List Event) :
    TimerInv (run st es).1 := by
  induction es generalizing st with
  | nil => exact h
  | cons e es ih => exact ih (step st e).1 (timerInv_step st e h)

/-- A torn-down controller: unmounted with no live timer. -/
def Quiescent (st : AppState) : Prop :=
  st.mounted = false ∧ st.activeTimers = []

theorem step_quiescent (st : AppState) (e : Event) (h : Quiescent st) :
    Quiescent (step st e).1 ∧ (step st e).2 = [] := by
  obtain ⟨hm, ht⟩ := h
  cases e with
  | effectRun t i net =>
    simp only [step, hm, if_false]
    exact ⟨⟨hm, ht⟩, by trivial⟩
  | timerFire id net =>
    have hany : st.activeTimers.any (fun tm => tm.id == id) = false := by
      rw [ht]
      rfl
    simp only [step, hany, if_false]
    exact ⟨⟨hm, ht⟩, by trivial⟩
  | resolveNext =>
    cases hp : st.pending with
    | nil => simp only [step, hp]; exact ⟨⟨hm, ht⟩, by trivial⟩
    | cons r rest =>
      cases r with
      | ok d => simp only [step, hp]; exact ⟨⟨hm, ht⟩, by trivial⟩
      | error e0 => simp only [step, hp]; exact ⟨⟨hm, ht⟩, by trivial⟩
  | unmount =>
    simp only [step]
    refine ⟨⟨rfl, ?_⟩, by trivial⟩
    rw [ht]
    cases st.pollingTimer <;> rfl

theorem run_quiescent (st : AppState) (h : Quiescent st) (es : List Event) :
    Quiescent (run st es).1 ∧ (run st es).2 = [] := by
  induction es generalizing st with
  | nil => exact ⟨h, rfl⟩
  | cons e es ih =>
    obtain ⟨h1, h2⟩ := step_quiescent st e h
    obtain ⟨h3, h4⟩ := ih (step st e).1 h1
    refine ⟨h3, ?_⟩
    show (step st e).2 ++ (run (step st e).1 es).2 = []
    rw [h2, h4]
    rfl

theorem run_append_fst (st : AppState) (es es' : List Event) :
    (run st (es ++ es')).1 = (run (run st es).1 es').1 := by
  induction es generalizing st with
  | nil => rfl
  | cons e es ih =>
    show (run (step st e).1 (es ++ es')).1 = _
    rw [ih (step st e).1]
    rfl

theorem run_append_snd (st : AppState) (es es' : List Event) :
    (run st (es ++ es')).2 = (run st es).2 ++ (run (run st es).1 es').2 := by
  induction es generalizing st with
  | nil => rfl
  | cons e es ih =>
    show (step st e).2 ++ (run (step st e).1 (es ++ es')).2 = _
    rw [ih (step st e).1, ← List.append_assoc]
    rfl

theorem unmount_quiescent (st : AppState) (h : TimerInv st) :
    Quiescent (step st .unmount).1 := by
  have h2 := timerInv_step st .unmount h
  refine ⟨rfl, ?_⟩
  rw [h2]
  rfl

/-- Claim C7: while the controller is active at most one repeating timer is
live; an effect run while mounted (a ticker/interval change) leaves exactly
one newly armed `POLLING_INTERVAL_MS` (30000 ms) repeating timer; after
unmount zero timers are live, and no event sequence after the unmount ever
issues a fetch request. -/
theorem timer_discipline :
    (∀ es, ((run initState es).1.activeTimers).length ≤ 1) ∧
    (∀ es t i net, (run initState es).1.mounted = true →
      (step (run initState es).1 (.effectRun t i net)).1.activeTimers =
        [{ id := (run initState es).1.nextTimerId, periodMs := POLLING_INTERVAL_MS }]) ∧
    (∀ es, (run initState (es ++ [.unmount])).1.activeTimers = []) ∧
    (∀ es es', (run (run initState (es ++ [.unmount])).1 es').2 = []) := by
  have hinv : ∀ es, TimerInv (run initState es).1 :=
    fun es => timerInv_run initState timerInv_init es
  have hq : ∀ es, Quiescent (run initState (es ++ [.unmount])).1 := by
    intro es
    rw [run_append_fst]
    exact unmount_quiescent (run initState es).1 (hinv es)
  refine ⟨?_, ?_, ?_, ?_⟩
  · intro es
    rw [hinv es]
    by_cases hm : (run initState es).1.mounted = true
    · rw [if_pos hm]
      cases (run initState es).1.pollingTimer <;> simp [timersOfRef]
    · rw [if_neg hm]
      simp
  · intro es t i net hm
    have hact : (run initState es).1.activeTimers
        = timersOfRef (run initState es).1.pollingTimer := by
      rw [hinv es, if_pos hm]
    simp only [step, hm, if_true, fetchDataStart]
    rw [hact, clearIntervalTimers_timersOfRef]
    rfl
  · intro es
    exact (hq es).2
  · intro es es'
    exact (run_quiescent _ (hq es) es').2

theorem timer_discipline_witness :
    ((run initState []).1.mounted = true) ∧
    (step (run initState []).1
        (.effectRun DEFAULT_TICKER DEFAULT_INTERVAL netOk)).1.activeTimers =
      [{ id := 0, periodMs := POLLING_INTERVAL_MS }] := by
  refine ⟨rfl, ?_⟩
  exact timer_discipline.2.1 [] DEFAULT_TICKER DEFAULT_INTERVAL netOk rfl

/-- Whether a JSON value's `history` field is an array. -/
def historyIsArray (j : Json) : Bool := (j.getField (jstr "history")).isArray

theorem fetchStockDataApi_ok_validated (s p i : JStr) (net : Net) (d : Json)
    (h : (fetchStockDataApi s p i net).result = .ok d) : historyIsArray d = true := by
  simp only [fetchStockDataApi] at h
  split at h
  · exact absurd h (by simp)
  · split at h
    · exact absurd h (by simp)
    · split at h
      · exact absurd h (by simp)
      · split at h
        · exact absurd h (by simp)
        · simp_all [historyIsArray]

/-- Data invariant: the stored stock data has an array-valued `history`
field, and so does every fulfilled in-flight fetch result. -/
def DataInv (st : AppState) : Prop :=
  historyIsArray st.stockData = true ∧
  ∀ r ∈ st.pending, ∀ d, r = Except.ok d → historyIsArray d = true

theorem dataInv_init : DataInv initState := by
  constructor
  · rfl
  · intro r hr
    exact absurd hr (by simp [initState])

theorem dataInv_fetchDataStart (st : AppState) (t i : JStr) (net : Net) (h : DataInv st) :
    DataInv (fetchDataStart t i net st) := by
  obtain ⟨h1, h2⟩ := h
  refine ⟨h1, ?_⟩
  intro r hr d hd
  simp only [fetchDataStart, List.mem_append, List.mem_singleton] at hr
  rcases hr with hr | hr
  · exact h2 r hr d hd
  · subst hr
    exact fetchStockDataApi_ok_validated t (derivePeriod i) i net d hd

theorem dataInv_step (st : AppState) (e : Event) (h : DataInv st) :
    DataInv (step st e).1 := by
  cases e with
  | effectRun t i net =>
    by_cases hm : st.mounted = true
    · have h' := dataInv_fetchDataStart { st with ticker := t, interval := i } t i net
        ⟨h.1, h.2⟩
      simp only [step, hm, if_true]
      exact ⟨h'.1, h'.2⟩
    · simp only [step, hm, if_false]
      exact h
  | timerFire id net =>
    by_cases ht : st.activeTimers.any (fun tm => tm.id == id) = true
    · simp only [step, ht, if_true]
      exact dataInv_fetchDataStart st st.ticker st.interval net h
    · simp only [step, ht, if_false]
      exact h
  | resolveNext =>
    obtain ⟨h1, h2⟩ := h
    cases hp : st.pending with
    | nil => simp only [step, hp]; exact ⟨h1, h2⟩
    | cons r rest =>
      cases r with
      | ok d =>
        simp only [step, hp]
        refine ⟨h2 (Except.ok d) (by rw [hp]; exact List.mem_cons_self _ _) d rfl, ?_⟩
        intro r' hr' d' hd'
        exact h2 r' (by rw [hp]; exact List.mem_cons_of_mem _ hr') d' hd'
      | error e0 =>
        simp only [step, hp]
        refine ⟨h1, ?_⟩
        intro r' hr' d' hd'
        exact h2 r' (by rw [hp]; exact List.mem_cons_of_mem _ hr') d' hd'
  | unmount =>
    exact ⟨h.1, h.2⟩

theorem dataInv_run (st : AppState) (h : DataInv st) (es : List Event) :
    DataInv (run st es).1 := by
  induction es generalizing st with
  | nil => exact h
  | cons e es ih => exact ih (step st e).1 (dataInv_step st e h)

/-- Claim C9: in every reachable controller state `stockData.history` is an
array — the initial state stores `{ info: null, history: [] }`, a
successful fetch stores only a response validated by `Array.isArray`, and a
failed fetch leaves `stockData` unchanged. -/
theorem stockData_history_invariant :
    (initState.stockData = Json.obj [(jstr "info", Json.null), (jstr "history", Json.arr [])]) ∧
    (∀ es, historyIsArray ((run initState es).1.stockData) = true) ∧
    (∀ (st : AppState) (e0 : JsError) (rest : List (Except JsError Json)),
      (step { st with pending := Except.error e0 :: rest } Event.resolveNext).1.stockData
        = st.stockData) := by
  refine ⟨rfl, ?_, ?_⟩
  · intro es
    exact (dataInv_run initState dataInv_init es).1
  · intro st e0 rest
    rfl
